import Mathlib

/-!
Verification of the DeepWiki RSC parser (`DeepWikiRSCParser`): a shallow
embedding of the decoder into Lean 4, operating on `List Char`.

Abstractions documented up front:
* JS strings are modelled as `List Char`; JS `String.prototype.trim` and the
  regex class `\s` are modelled on the ASCII whitespace characters that can
  occur in this text format (space, tab, newline, carriage return, vertical
  tab, form feed).
* JS `Map` objects (insertion-ordered, `set` on an existing key updates the
  value in place keeping the original position) are modelled as association
  lists with an in-place-updating `mapSet`.
* `JSON.parse` is modelled by an executable JSON reader (`jsonParse`) that
  covers objects, arrays, strings with the standard escapes, numbers,
  booleans and null; number values are kept as their lexemes.
* Each JS regex used by the source is hand-translated to an executable
  matcher that reproduces the engine's leftmost-match, greedy/backtracking
  and non-overlapping global-scan behaviour for that particular pattern.
-/

set_option maxRecDepth 100000

namespace DeepWiki

abbrev Str := List Char

/-- The character class `[0-9a-f]` used by the header patterns. -/
def isHexDig (c : Char) : Bool :=
  ('0' ≤ c && c ≤ '9') || ('a' ≤ c && c ≤ 'f')

/-- The character class `\d`. -/
def isDig (c : Char) : Bool := '0' ≤ c && c ≤ '9'

/-- ASCII whitespace as trimmed by JS `trim` and matched by `\s`
(restricted to the ASCII range, which is all this format produces). -/
def isWs (c : Char) : Bool :=
  c = ' ' || c = '\t' || c = '\n' || c = '\x0d' || c = '\x0b' || c = '\x0c'

/-- Characters matched by `.` in a JS regex without the `s` flag:
everything except the four line terminators. -/
def isDotChar (c : Char) : Bool :=
  c ≠ '\n' && c ≠ '\x0d' && c ≠ '\u2028' && c ≠ '\u2029'

/-- JS `String.prototype.trim` (ASCII whitespace). -/
def trim (s : Str) : Str :=
  ((s.dropWhile isWs).reverse.dropWhile isWs).reverse

/-- `Array.prototype.join("\n")`. -/
def joinNL (xs : List Str) : Str := List.intercalate ['\n'] xs

/-- JS `String.prototype.split("\n")`: never returns an empty list,
keeps empty pieces. -/
def splitLines : Str → List Str
  | [] => [[]]
  | c :: cs =>
    if c = '\n' then [] :: splitLines cs
    else
      match splitLines cs with
      | l :: ls => (c :: l) :: ls
      | [] => [[c]]

/-- First-match lookup in an association list (JS `Map.prototype.get`). -/
def mapLookup {α : Type} (m : List (Str × α)) (k : Str) : Option α :=
  match m with
  | [] => none
  | (k', v) :: rest => if k' = k then some v else mapLookup rest k

/-- JS `Map.prototype.set`: update in place if the key is present
(keeping its original insertion position), else append. -/
def mapSet {α : Type} (m : List (Str × α)) (k : Str) (v : α) : List (Str × α) :=
  match m with
  | [] => [(k, v)]
  | (k', v') :: rest => if k' = k then (k', v) :: rest else (k', v') :: mapSet rest k v

/-- `lit.isPrefixOf s`, as a Bool test used by the literal-substring regexes. -/
def isLitAt (lit s : Str) : Bool := lit.isPrefixOf s

/-- Index of the first suffix position satisfying `p`
(the leftmost match position of a regex whose match test at a
position is `p`). -/
def firstIdxWhere (p : Str → Bool) : Str → Option Nat
  | [] => if p [] then some 0 else none
  | c :: cs =>
    if p (c :: cs) then some 0
    else (firstIdxWhere p cs).map (· + 1)

/-- Run `f` at every suffix, left to right, returning the first hit
(leftmost regex match, keeping the match payload). -/
def scanFirst {α : Type} (f : Str → Option α) : Str → Option α
  | [] => f []
  | c :: cs =>
    match f (c :: cs) with
    | some v => some v
    | none => scanFirst f cs

/-- `s` contains `lit` as a contiguous substring. -/
def containsLit (lit : Str) (s : Str) : Bool :=
  (firstIdxWhere (isLitAt lit) s).isSome

/-- Exactly `n` characters satisfying `p`, returned with the remainder. -/
def takeExact (p : Char → Bool) : Nat → Str → Option (Str × Str)
  | 0, s => some ([], s)
  | _ + 1, [] => none
  | n + 1, c :: cs =>
    if p c then (takeExact p n cs).map (fun ab => (c :: ab.1, ab.2)) else none

/-! ### The segmentation pre-pass (`parse`, embedded-pattern rewriting)

The source applies three global regex replacements in order, each
prepending `"\n"` to every match:
`/([0-9a-f]{1,2}):T([0-9a-f]{1,4}),/g`, `/([0-9a-f]{1,2}):\[/g`,
`/([0-9a-f]{1,2}):I\[/g`. -/

/-- Try the Text-header shape at the current position with an id of
exactly `i` hex digits and a hash of exactly `h` hex digits
(one backtracking alternative of the regex). -/
def matchTWith (i h : Nat) (s : Str) : Option (Str × Str) :=
  match takeExact isHexDig i s with
  | none => none
  | some (idc, r1) =>
    match r1 with
    | ':' :: 'T' :: r2 =>
      match takeExact isHexDig h r2 with
      | none => none
      | some (hc, r3) =>
        match r3 with
        | ',' :: r4 => some (idc ++ ':' :: 'T' :: (hc ++ [',']), r4)
        | _ => none
    | _ => none

/-- `([0-9a-f]{1,2}):T([0-9a-f]{1,4}),` at the current position, with
the greedy backtracking order of the JS engine. -/
def matchTAt (s : Str) : Option (Str × Str) :=
  (matchTWith 2 4 s) <|> (matchTWith 2 3 s) <|> (matchTWith 2 2 s) <|> (matchTWith 2 1 s) <|>
  (matchTWith 1 4 s) <|> (matchTWith 1 3 s) <|> (matchTWith 1 2 s) <|> (matchTWith 1 1 s)

/-- One backtracking alternative of the array-header shape. -/
def matchArrWith (i : Nat) (s : Str) : Option (Str × Str) :=
  match takeExact isHexDig i s with
  | some (idc, ':' :: '[' :: r) => some (idc ++ [':', '['], r)
  | _ => none

/-- `([0-9a-f]{1,2}):\[` at the current position. -/
def matchArrAt (s : Str) : Option (Str × Str) :=
  (matchArrWith 2 s) <|> (matchArrWith 1 s)

/-- One backtracking alternative of the module-reference header shape. -/
def matchIWith (i : Nat) (s : Str) : Option (Str × Str) :=
  match takeExact isHexDig i s with
  | some (idc, ':' :: 'I' :: '[' :: r) => some (idc ++ [':', 'I', '['], r)
  | _ => none

/-- `([0-9a-f]{1,2}):I\[` at the current position. -/
def matchIAt (s : Str) : Option (Str × Str) :=
  (matchIWith 2 s) <|> (matchIWith 1 s)

/-- Global replace of every leftmost non-overlapping match of `matchAt`
by `"\n" ++ match`, fuelled (fuel `= s.length` always suffices because
matches are non-empty). -/
def breakBeforeAux (matchAt : Str → Option (Str × Str)) : Nat → Str → Str
  | _, [] => []
  | 0, s => s
  | n + 1, c :: cs =>
    match matchAt (c :: cs) with
    | some (m, rest) => '\n' :: (m ++ breakBeforeAux matchAt n rest)
    | none => c :: breakBeforeAux matchAt n cs

/-- One global `replace(pattern, "\n" + match)` pass. -/
def breakBefore (matchAt : Str → Option (Str × Str)) (s : Str) : Str :=
  breakBeforeAux matchAt s.length s

/-- The full segmentation pre-pass: Text shape, then array shape, then
module-reference shape, each as an independent global pass. -/
def preprocess (s : Str) : Str :=
  breakBefore matchIAt (breakBefore matchArrAt (breakBefore matchTAt s))

/-! ### Records and classification -/

/-- The record kinds of `RSCEntry.type` (`"I" | "T" | "ARRAY" | "OTHER"`). -/
inductive EntryTy
  | I
  | T
  | ARRAY
  | OTHER
deriving DecidableEq, Repr

/-- One decoded record (`RSCEntry` in the source). -/
structure RSCEntry where
  id : Str
  type : EntryTy
  content : Option Str := none
  hash : Option Str := none
  fullContent : Option Str := none
deriving DecidableEq, Repr

/-- The line-loop header test `/^([0-9a-f]+):(.*)$/`: a non-empty maximal
hex-digit prefix followed by `:`, with the remainder free of line
terminators (`.` does not match them). -/
def lineHeader (line : Str) : Option (Str × Str) :=
  let id := line.takeWhile isHexDig
  match id, line.dropWhile isHexDig with
  | [], _ => none
  | _ :: _, ':' :: r => if r.all isDotChar then some (id, r) else none
  | _, _ => none

/-- The Text-record head test `/^T([0-9a-f]+)(,(.*))?$/`: returns the hash
and the inline fragment (`tMatch[3] || ""`). -/
def tHead (content : Str) : Option (Str × Str) :=
  match content with
  | 'T' :: r =>
    let hx := r.takeWhile isHexDig
    match hx, r.dropWhile isHexDig with
    | [], _ => none
    | _ :: _, [] => some (hx, [])
    | _ :: _, ',' :: rest => if rest.all isDotChar then some (hx, rest) else none
    | _, _ => none
  | _ => none

/-- `parseEntryStart`: classify the text after the header colon.
The source checks `I[`, then `[`, then the Text shape, then falls
through to `OTHER`. -/
def parseEntryStart (id content : Str) : RSCEntry :=
  if ['I', '['].isPrefixOf content then
    { id := id, type := .I, content := some content }
  else if ['['].isPrefixOf content then
    { id := id, type := .ARRAY }
  else
    match tHead content with
    | some (hx, c) => { id := id, type := .T, hash := some hx, content := some c }
    | none => { id := id, type := .OTHER }

/-! ### Trailing-contamination removal (`saveEntry`, Text records only) -/

/-- `/\d+:\["\$","\$L\d+"/` tested at one position. -/
def rscArrAt (s : Str) : Bool :=
  let d1 := s.takeWhile isDig
  let r1 := s.dropWhile isDig
  d1 ≠ [] &&
    ([':', '[', '"', '$', '"', ',', '"', '$', 'L'].isPrefixOf r1) &&
    (let r2 := r1.drop 9
     let d2 := r2.takeWhile isDig
     d2 ≠ [] && (r2.dropWhile isDig).head? = some '"')

/-- The literal `{"repoName":`. -/
def repoLit : Str := ['\x7b', '"', 'r', 'e', 'p', 'o', 'N', 'a', 'm', 'e', '"', ':']

/-- The literal `{"parallelRouterKey":`. -/
def routerLit : Str :=
  ['\x7b', '"', 'p', 'a', 'r', 'a', 'l', 'l', 'e', 'l', 'R', 'o', 'u', 't', 'e', 'r',
   'K', 'e', 'y', '"', ':']

/-- The source's `for (pattern of rscPatterns) { match; break }` loop:
the first occurrence of the first pattern, in the fixed order
RSC-array shape, `repoName` marker, router-key marker, that matches
anywhere in the body. -/
def contamIdx (t : Str) : Option Nat :=
  match firstIdxWhere rscArrAt t with
  | some i => some i
  | none =>
    match firstIdxWhere (isLitAt repoLit) t with
    | some i => some i
    | none => firstIdxWhere (isLitAt routerLit) t

/-- Truncate a Text body at the contamination cut, re-trimming. -/
def finalizeT (t : Str) : Str :=
  match contamIdx t with
  | some i => trim (t.take i)
  | none => t

/-! ### JSON (model of `JSON.parse` for the metadata substring) -/

/-- JSON values; numbers are kept as their source lexemes. -/
inductive Json
  | jnull
  | jbool (b : Bool)
  | jnum (lex : Str)
  | jstr (s : Str)
  | jarr (xs : List Json)
  | jobj (kvs : List (Str × Json))
deriving Repr

/-- JSON insignificant whitespace. -/
def isJWs (c : Char) : Bool := c = ' ' || c = '\t' || c = '\n' || c = '\x0d'

/-- Hex digit of either case (for `\u` escapes). -/
def isHexAny (c : Char) : Bool :=
  isHexDig c || ('A' ≤ c && c ≤ 'F')

def hexVal (c : Char) : Nat :=
  if isDig c then c.toNat - '0'.toNat
  else if 'a' ≤ c && c ≤ 'f' then c.toNat - 'a'.toNat + 10
  else if 'A' ≤ c && c ≤ 'F' then c.toNat - 'A'.toNat + 10
  else 0

/-- JSON string body after the opening quote; returns the decoded
characters and the remainder after the closing quote. -/
def parseJStr : Nat → Str → Option (Str × Str)
  | 0, _ => none
  | _ + 1, [] => none
  | n + 1, c :: cs =>
    if c = '"' then some ([], cs)
    else if c = '\\' then
      match cs with
      | '"' :: r => (parseJStr n r).map (fun ab => ('"' :: ab.1, ab.2))
      | '\\' :: r => (parseJStr n r).map (fun ab => ('\\' :: ab.1, ab.2))
      | '/' :: r => (parseJStr n r).map (fun ab => ('/' :: ab.1, ab.2))
      | 'b' :: r => (parseJStr n r).map (fun ab => ('\x08' :: ab.1, ab.2))
      | 'f' :: r => (parseJStr n r).map (fun ab => ('\x0c' :: ab.1, ab.2))
      | 'n' :: r => (parseJStr n r).map (fun ab => ('\n' :: ab.1, ab.2))
      | 'r' :: r => (parseJStr n r).map (fun ab => ('\x0d' :: ab.1, ab.2))
      | 't' :: r => (parseJStr n r).map (fun ab => ('\t' :: ab.1, ab.2))
      | 'u' :: h1 :: h2 :: h3 :: h4 :: r =>
        if isHexAny h1 && isHexAny h2 && isHexAny h3 && isHexAny h4 then
          (parseJStr n r).map (fun ab =>
            (Char.ofNat (((hexVal h1 * 16 + hexVal h2) * 16 + hexVal h3) * 16 + hexVal h4)
              :: ab.1, ab.2))
        else none
      | _ => none
    else if c.toNat < 32 then none
    else (parseJStr n cs).map (fun ab => (c :: ab.1, ab.2))

/-- JSON number lexeme: `-?(0|[1-9]\d*)(\.\d+)?([eE][+-]?\d+)?`. -/
def parseJNum (s : Str) : Option (Str × Str) :=
  let sign : Str × Str :=
    match s with
    | '-' :: r => (['-'], r)
    | _ => ([], s)
  let intPart : Option (Str × Str) :=
    match sign.2 with
    | '0' :: r => some (['0'], r)
    | c :: r =>
      if isDig c && c ≠ '0' then
        some (c :: r.takeWhile isDig, r.dropWhile isDig)
      else none
    | [] => none
  match intPart with
  | none => none
  | some (ip, r1) =>
    let frac : Option (Str × Str) :=
      match r1 with
      | '.' :: r2 =>
        match r2.takeWhile isDig with
        | [] => none
        | ds => some ('.' :: ds, r2.dropWhile isDig)
      | _ => some ([], r1)
    match frac with
    | none => none
    | some (fp, r3) =>
      let expo : Option (Str × Str) :=
        match r3 with
        | c :: r4 =>
          if c = 'e' || c = 'E' then
            let sgn : Str × Str :=
              match r4 with
              | '+' :: r5 => (['+'], r5)
              | '-' :: r5 => (['-'], r5)
              | _ => ([], r4)
            match sgn.2.takeWhile isDig with
            | [] => none
            | ds => some (c :: sgn.1 ++ ds, sgn.2.dropWhile isDig)
          else some ([], r3)
        | [] => some ([], r3)
      match expo with
      | none => none
      | some (ep, r6) => some (sign.1 ++ ip ++ fp ++ ep, r6)

mutual

/-- One JSON value, leading whitespace allowed. -/
def parseJVal : Nat → Str → Option (Json × Str)
  | 0, _ => none
  | n + 1, s =>
    match s.dropWhile isJWs with
    | 'n' :: 'u' :: 'l' :: 'l' :: r => some (.jnull, r)
    | 't' :: 'r' :: 'u' :: 'e' :: r => some (.jbool true, r)
    | 'f' :: 'a' :: 'l' :: 's' :: 'e' :: r => some (.jbool false, r)
    | '"' :: r => (parseJStr (r.length + 1) r).map (fun ab => (.jstr ab.1, ab.2))
    | '[' :: r => parseJArr n r
    | '\x7b' :: r => parseJObj n r
    | t => (parseJNum t).map (fun ab => (.jnum ab.1, ab.2))

/-- Array items after the opening bracket. -/
def parseJArr : Nat → Str → Option (Json × Str)
  | 0, _ => none
  | n + 1, s =>
    match s.dropWhile isJWs with
    | ']' :: r => some (.jarr [], r)
    | t =>
      match parseJVal n t with
      | none => none
      | some (v, r2) =>
        match parseJArrRest n r2 with
        | some (vs, r3) => some (.jarr (v :: vs), r3)
        | none => none

/-- `, item ... ]` tail of an array. -/
def parseJArrRest : Nat → Str → Option (List Json × Str)
  | 0, _ => none
  | n + 1, s =>
    match s.dropWhile isJWs with
    | ']' :: r => some ([], r)
    | ',' :: r =>
      match parseJVal n r with
      | none => none
      | some (v, r2) =>
        match parseJArrRest n r2 with
        | some (vs, r3) => some (v :: vs, r3)
        | none => none
    | _ => none

/-- Object members after the opening brace. -/
def parseJObj : Nat → Str → Option (Json × Str)
  | 0, _ => none
  | n + 1, s =>
    match s.dropWhile isJWs with
    | '\x7d' :: r => some (.jobj [], r)
    | t =>
      match parseJMember n t with
      | none => none
      | some (kv, r2) =>
        match parseJObjRest n r2 with
        | some (kvs, r3) => some (.jobj (kv :: kvs), r3)
        | none => none

/-- One `"key": value` member, leading whitespace allowed. -/
def parseJMember : Nat → Str → Option ((Str × Json) × Str)
  | 0, _ => none
  | n + 1, s =>
    match s.dropWhile isJWs with
    | '"' :: r =>
      match parseJStr (r.length + 1) r with
      | none => none
      | some (k, r2) =>
        match r2.dropWhile isJWs with
        | ':' :: r3 =>
          match parseJVal n r3 with
          | none => none
          | some (v, r4) => some ((k, v), r4)
        | _ => none
    | _ => none

/-- `, member ... }` tail of an object. -/
def parseJObjRest : Nat → Str → Option (List (Str × Json) × Str)
  | 0, _ => none
  | n + 1, s =>
    match s.dropWhile isJWs with
    | '\x7d' :: r => some ([], r)
    | ',' :: r =>
      match parseJMember n r with
      | none => none
      | some (kv, r2) =>
        match parseJObjRest n r2 with
        | some (kvs, r3) => some (kv :: kvs, r3)
        | none => none
    | _ => none

end

/-- Model of `JSON.parse`: a single value with only trailing
whitespace allowed after it. -/
def jsonParse (s : Str) : Option Json :=
  match parseJVal (2 * s.length + 8) s with
  | some (v, r) => if r.dropWhile isJWs = [] then some v else none
  | none => none

/-! ### Decoder state and the line loop -/

/-- One resolved page descriptor (`PageStructure` in the source). -/
structure PageStructure where
  id : Str
  title : Str
  contentRef : Str
deriving DecidableEq, Repr

/-- The decoder instance's mutable fields. -/
@[ext]
structure PState where
  entries : List (Str × RSCEntry) := []
  markdownContents : List (Str × Str) := []
  pageStructure : List PageStructure := []
  metadata : Option Json := none

/-- The finalized body computed by `saveEntry`: buffer joined with
newlines, trimmed, with Text-record contamination truncation. -/
def savedBody (e : RSCEntry) (buf : List Str) : Str :=
  let full0 := trim (joinNL buf)
  if e.type = .T then finalizeT full0 else full0

/-- `saveEntry`: join the buffer with newlines, trim, truncate Text
contamination, index Text bodies, store the completed record. -/
def saveEntry (st : PState) (e : RSCEntry) (buf : List Str) : PState :=
  { st with
    markdownContents :=
      if e.type = .T then mapSet st.markdownContents e.id (savedBody e buf)
      else st.markdownContents,
    entries := mapSet st.entries e.id { e with fullContent := some (savedBody e buf) } }

/-- The initial content buffer for a freshly started record: the inline
fragment for a Text record when truthy, the whole first part for array
and opaque records, nothing for a module reference. -/
def initBuf (e : RSCEntry) (firstPart : Str) : List Str :=
  match e.type, e.content with
  | .T, some c => if c = [] then [] else [c]
  | .ARRAY, _ => [firstPart]
  | .OTHER, _ => [firstPart]
  | _, _ => []

/-- The loop state of `parse`: current record, its buffer, decoder state. -/
structure LoopSt where
  cur : Option RSCEntry := none
  buf : List Str := []
  st : PState := {}

/-- One iteration of the line loop. -/
def stepLine (a : LoopSt) (line : Str) : LoopSt :=
  match lineHeader line with
  | some (id, rest) =>
    let st' :=
      match a.cur with
      | some e => saveEntry a.st e a.buf
      | none => a.st
    let e := parseEntryStart id rest
    { cur := some e, buf := initBuf e rest, st := st' }
  | none => { a with buf := a.buf ++ [line] }

/-- Run the line loop from a given loop state and finalize the still-open
record at end of input. -/
def parseLinesFrom (a : LoopSt) (lines : List Str) : PState :=
  let a' := lines.foldl stepLine a
  match a'.cur with
  | some e => saveEntry a'.st e a'.buf
  | none => a'.st

/-- The line loop of `parse` on a fresh decoder state. -/
def parseLines (lines : List Str) : PState :=
  parseLinesFrom {} lines

/-! ### Page-tree resolution (`extractPageStructure`, `parsePageList`) -/

/-- The detection marker `"wiki":{`. -/
def wikiLit : Str := ['"', 'w', 'i', 'k', 'i', '"', ':', '\x7b']

/-- The literal `"metadata":`. -/
def metaLit : Str := ['"', 'm', 'e', 't', 'a', 'd', 'a', 't', 'a', '"', ':']

/-- `/"metadata":\s*\{([^\}]+)\}/` tested at one position: the literal,
optional whitespace, an open brace, then the non-empty run up to the
first closing brace, which must exist. -/
def metaMatchAt (s : Str) : Option Str :=
  if metaLit.isPrefixOf s then
    match (s.drop 11).dropWhile isWs with
    | '\x7b' :: r2 =>
      let inner := r2.takeWhile (fun c => c ≠ '\x7d')
      match inner, r2.dropWhile (fun c => c ≠ '\x7d') with
      | [], _ => none
      | _ :: _, '\x7d' :: _ => some inner
      | _, _ => none
    | _ => none
  else none

/-- First (leftmost) metadata-object match in a record body. -/
def metaMatch (s : Str) : Option Str := scanFirst metaMatchAt s

/-- The literal `"pages":`. -/
def pagesLit : Str := ['"', 'p', 'a', 'g', 'e', 's', '"', ':']

/-- Characters strictly before the first `]}` pair, if one occurs. -/
def takeUntilRB : Str → Option Str
  | [] => none
  | ']' :: '\x7d' :: _ => some []
  | c :: cs => (takeUntilRB cs).map (c :: ·)

/-- `/"pages":\s*\[([\s\S]*?)\]\}/` tested at one position: non-greedy
up to the first `]}` boundary. -/
def pagesMatch1At (s : Str) : Option Str :=
  if pagesLit.isPrefixOf s then
    match (s.drop 8).dropWhile isWs with
    | '[' :: r2 => takeUntilRB r2
    | _ => none
  else none

/-- The fallback `/"pages":\s*\[([^\]]+(?:\{[^\}]*\}[^\]]*)*)]/` tested at
one position.  Because `[^\]]+` is greedy and consumes everything up to
the first `]`, the starred group always matches zero times, so the
pattern accepts exactly a non-empty bracket-free run followed by `]`. -/
def pagesAltAt (s : Str) : Option Str :=
  if pagesLit.isPrefixOf s then
    match (s.drop 8).dropWhile isWs with
    | '[' :: r2 =>
      let run := r2.takeWhile (fun c => c ≠ ']')
      match run, r2.dropWhile (fun c => c ≠ ']') with
      | [], _ => none
      | _ :: _, ']' :: _ => some run
      | _, _ => none
    | _ => none
  else none

/-- The page-list substring of a record body: the non-greedy pattern
first, falling through to the tolerant fallback when it found nothing
or captured an empty group — the source tests `!pagesMatch` on the
captured group, and an empty string is falsy in JS, so a body such as
`"pages":[]}` is treated as no extraction from the first pattern. -/
def pagesExtract (s : Str) : Option Str :=
  match scanFirst pagesMatch1At s with
  | some x => if x = [] then scanFirst pagesAltAt s else some x
  | none => scanFirst pagesAltAt s

/-- The literal `{"page_plan":`. -/
def pagePlanLit : Str :=
  ['\x7b', '"', 'p', 'a', 'g', 'e', '_', 'p', 'l', 'a', 'n', '"', ':']

/-- Literal-prefix consumer for the descriptor regex. -/
def eatLit (lit s : Str) : Option Str :=
  if lit.isPrefixOf s then some (s.drop lit.length) else none

/-- A non-empty `[^"]+` group closed by `"`. -/
def eatQuoted (s : Str) : Option (Str × Str) :=
  match s.takeWhile (fun c => c ≠ '"'), s.dropWhile (fun c => c ≠ '"') with
  | [], _ => none
  | run, '"' :: r => some (run, r)
  | _, _ => none

/-- The descriptor shape
`\{"page_plan":\s*\{"id":\s*"([^"]+)",\s*"title":\s*"([^"]+)"\},\s*"content":\s*"\$([0-9a-f]+)"\}`
tested at one position; returns the descriptor and the remainder after
the match. -/
def pageDescAt (s : Str) : Option (PageStructure × Str) :=
  match eatLit pagePlanLit s with
  | none => none
  | some r1 =>
    match eatLit ['\x7b', '"', 'i', 'd', '"', ':'] (r1.dropWhile isWs) with
    | none => none
    | some r2 =>
      match r2.dropWhile isWs with
      | '"' :: r3 =>
        match eatQuoted r3 with
        | none => none
        | some (idv, r4) =>
          match eatLit [','] r4 with
          | none => none
          | some r5 =>
            match eatLit ['"', 't', 'i', 't', 'l', 'e', '"', ':'] (r5.dropWhile isWs) with
            | none => none
            | some r6 =>
              match r6.dropWhile isWs with
              | '"' :: r7 =>
                match eatQuoted r7 with
                | none => none
                | some (titlev, r8) =>
                  match eatLit ['\x7d', ','] r8 with
                  | none => none
                  | some r9 =>
                    match eatLit ['"', 'c', 'o', 'n', 't', 'e', 'n', 't', '"', ':']
                        (r9.dropWhile isWs) with
                    | none => none
                    | some r10 =>
                      match (r10.dropWhile isWs) with
                      | '"' :: '$' :: r11 =>
                        match r11.takeWhile isHexDig, r11.dropWhile isHexDig with
                        | [], _ => none
                        | refv, '"' :: '\x7d' :: r12 =>
                          some ({ id := idv, title := titlev, contentRef := refv }, r12)
                        | _, _ => none
                      | _ => none
              | _ => none
      | _ => none

/-- The global `exec` loop of `parsePageList`: leftmost matches, each
scan resuming after the previous match. -/
def parsePageListAux : Nat → Str → List PageStructure
  | 0, _ => []
  | _ + 1, [] => []
  | n + 1, c :: cs =>
    match pageDescAt (c :: cs) with
    | some (d, rest) => d :: parsePageListAux n rest
    | none => parsePageListAux n cs

/-- `parsePageList`: collect every descriptor occurrence in order. -/
def parsePageList (s : Str) : List PageStructure :=
  parsePageListAux s.length s

/-- The body scanned by `extractPageStructure` (`entry.fullContent || ""`). -/
def entryBody (e : RSCEntry) : Str := e.fullContent.getD []

/-- `extractPageStructure`'s treatment of one completed record: if the
body carries the wiki marker, parse the metadata object (parse failure
leaves the previous metadata) and replace the page list when a page-list
substring is found. -/
def extractStep (st : PState) (pr : Str × RSCEntry) : PState :=
  let content := entryBody pr.2
  if containsLit wikiLit content then
    let st1 :=
      match metaMatch content with
      | some inner =>
        match jsonParse ('\x7b' :: inner ++ ['\x7d']) with
        | some j => { st with metadata := some j }
        | none => st
      | none => st
    match pagesExtract content with
    | some ps => { st1 with pageStructure := parsePageList ps }
    | none => st1
  else st

/-- `extractPageStructure`: scan all completed records in insertion
order. -/
def extractPageStructure (st : PState) : PState :=
  st.entries.foldl extractStep st

/-! ### Result assembly and the public interface -/

/-- One final page (`PageInfo` in the source). -/
structure PageInfo where
  id : Str
  title : Str
  content : Str
deriving DecidableEq, Repr

/-- The terminal output (`ParseResult` in the source); `markdownById`
keeps the content map's own entry order. -/
structure ParseResult where
  pages : List PageInfo
  markdownById : List (Str × Str)
  allMarkdown : List Str
  pageStructure : List PageStructure
  metadata : Option Json

/-- `buildResult`: resolve descriptors against the content map with the
source's truthiness test (`if (markdown)`), expose the maps. -/
def buildResult (st : PState) : ParseResult :=
  { pages := st.pageStructure.filterMap (fun p =>
      match mapLookup st.markdownContents p.contentRef with
      | some b => if b = [] then none else some { id := p.id, title := p.title, content := b }
      | none => none),
    markdownById := st.markdownContents,
    allMarkdown := st.markdownContents.map (·.2),
    pageStructure := st.pageStructure,
    metadata := st.metadata }

/-- `reset`: clear every per-instance field. -/
def resetState (_st : PState) : PState := {}

/-- `parse` on a decoder instance: reset, segment, run the line loop,
resolve the page tree; returns the new instance state and the result. -/
def parseOn (st : PState) (s : Str) : PState × ParseResult :=
  let st2 := extractPageStructure
    (parseLinesFrom { cur := none, buf := [], st := resetState st } (splitLines (preprocess s)))
  (st2, buildResult st2)

/-- The decoder state after `parse s` on any instance. -/
def runParse (s : Str) : PState := (parseOn {} s).1

/-- The `ParseResult` of `parse s`. -/
def parse (s : Str) : ParseResult := (parseOn {} s).2

/-- `getMarkdownById` (`markdownContents.get(id) || null`). -/
def getMarkdownById (st : PState) (id : Str) : Option Str :=
  match mapLookup st.markdownContents id with
  | some b => if b = [] then none else some b
  | none => none

/-- String literals as character lists. -/
def ofString (s : String) : Str := s.data

/-! ### Specification-side definitions

These definitions restate parts of the specification in forms
independent of the code's control flow; the theorems below relate the
code-side functions to them. -/

/-- The finalized `(record, buffer)` sequence produced by the line loop,
in finalization order, starting from a given open record and buffer. -/
def finalizedFrom (cur : Option RSCEntry) (buf : List Str) : List Str → List (RSCEntry × List Str)
  | [] =>
    match cur with
    | some e => [(e, buf)]
    | none => []
  | l :: ls =>
    match lineHeader l with
    | some (id, rest) =>
      let e := parseEntryStart id rest
      match cur with
      | some e0 => (e0, buf) :: finalizedFrom (some e) (initBuf e rest) ls
      | none => finalizedFrom (some e) (initBuf e rest) ls
    | none => finalizedFrom cur (buf ++ [l]) ls

/-- The finalized records of a full line-loop run. -/
def finalizedOf (lines : List Str) : List (RSCEntry × List Str) :=
  finalizedFrom none [] lines

/-- Apply a sequence of record finalizations to a decoder state. -/
def applySaves (st : PState) (saves : List (RSCEntry × List Str)) : PState :=
  saves.foldl (fun acc eb => saveEntry acc eb.1 eb.2) st

/-- The record value stored by `saveEntry`. -/
def savedRecord (e : RSCEntry) (buf : List Str) : RSCEntry :=
  { e with fullContent := some (savedBody e buf) }

/-- The keys of an association-list map. -/
def mapKeys {α : Type} (m : List (Str × α)) : List Str := m.map (·.1)

/-- The content-map update contributed by one finalization for a given
id: the finalized body when the record is a Text record with that id. -/
def mdUpd (idv : Str) (eb : RSCEntry × List Str) : Option Str :=
  if eb.1.type = .T ∧ eb.1.id = idv then some (savedBody eb.1 eb.2) else none

/-- The record-map update contributed by one finalization for a given id. -/
def entUpd (idv : Str) (eb : RSCEntry × List Str) : Option RSCEntry :=
  if eb.1.id = idv then some (savedRecord eb.1 eb.2) else none

/-- Earliest offset, across all three contamination patterns, at which
any of them matches (the specification's "earliest such match"). -/
def optMin : Option Nat → Option Nat → Option Nat
  | some a, some b => some (min a b)
  | some a, none => some a
  | none, x => x

/-- The earliest contamination match offset in a body. -/
def specEarliestContamIdx (t : Str) : Option Nat :=
  optMin (firstIdxWhere rscArrAt t)
    (optMin (firstIdxWhere (isLitAt repoLit) t) (firstIdxWhere (isLitAt routerLit) t))

/-- Truncation strictly before the earliest contamination match,
re-trimmed (the behaviour claimed by the specification). -/
def specTruncateEarliest (t : Str) : Str :=
  match specEarliestContamIdx t with
  | some i => trim (t.take i)
  | none => t

/-- Metadata successfully extracted from one completed record:
the first metadata-object substring, if it parses as JSON. -/
def metaOf (e : RSCEntry) : Option Json :=
  match metaMatch (entryBody e) with
  | some inner => jsonParse ('\x7b' :: inner ++ ['\x7d'])
  | none => none

/-- Page list successfully extracted from one completed record. -/
def pagesOf (e : RSCEntry) : Option (List PageStructure) :=
  (pagesExtract (entryBody e)).map parsePageList

/-- The completed records containing the `"wiki":{` detection marker,
in iteration order. -/
def wikiEntries (entries : List (Str × RSCEntry)) : List RSCEntry :=
  (entries.map (·.2)).filter (fun e => containsLit wikiLit (entryBody e))

/-- Page resolution as the specification describes it once empty bodies
are excluded: keep the descriptors whose reference resolves to a
non-empty body, in order, pairing each with that body. -/
def specPages (st : PState) : List PageInfo :=
  (st.pageStructure.filter
      (fun d => ((mapLookup st.markdownContents d.contentRef).getD []) ≠ [])).map
    (fun d =>
      { id := d.id, title := d.title,
        content := (mapLookup st.markdownContents d.contentRef).getD [] })

/-- Page resolution as claim C4 literally states it: keep every
descriptor whose reference has a corresponding entry in the content
map (a key-membership test), pairing each with the looked-up body. -/
def specPagesMembership (st : PState) : List PageInfo :=
  (st.pageStructure.filter
      (fun d => (mapLookup st.markdownContents d.contentRef).isSome)).map
    (fun d =>
      { id := d.id, title := d.title,
        content := (mapLookup st.markdownContents d.contentRef).getD [] })

/-- The non-overlapping leftmost-match decomposition computed by one
global replacement pass: `(gap, match)` pairs plus the unmatched tail. -/
def chunksAux (matchAt : Str → Option (Str × Str)) : Nat → Str → List (Str × Str) × Str
  | _, [] => ([], [])
  | 0, s => ([], s)
  | n + 1, c :: cs =>
    match matchAt (c :: cs) with
    | some (m, rest) =>
      let pr := chunksAux matchAt n rest
      (([], m) :: pr.1, pr.2)
    | none =>
      let pr := chunksAux matchAt n cs
      match pr.1 with
      | [] => ([], c :: pr.2)
      | (g, m) :: ps => ((c :: g, m) :: ps, pr.2)

/-- The decomposition of a whole string under one pass. -/
def chunksOf (matchAt : Str → Option (Str × Str)) (s : Str) : List (Str × Str) × Str :=
  chunksAux matchAt s.length s

/-- Reassemble a decomposition without the inserted breaks. -/
def renderPlain (pr : List (Str × Str) × Str) : Str :=
  (pr.1.map (fun gm => gm.1 ++ gm.2)).flatten ++ pr.2

/-- Reassemble a decomposition with one line break inserted immediately
before every matched piece. -/
def renderBroken (pr : List (Str × Str) × Str) : Str :=
  (pr.1.map (fun gm => gm.1 ++ '\n' :: gm.2)).flatten ++ pr.2

/-- Every matched piece of a decomposition genuinely matches at its
position (with its actual continuation); recursion over the pieces. -/
def chunksSoundAux (matchAt : Str → Option (Str × Str)) (tail : Str) :
    List (Str × Str) → Bool
  | [] => true
  | (_, m) :: ps =>
    decide (matchAt (m ++ renderPlain (ps, tail)) = some (m, renderPlain (ps, tail))) &&
      chunksSoundAux matchAt tail ps

/-- Every matched piece of a decomposition genuinely matches at its
position (with its actual continuation). -/
def chunksSound (matchAt : Str → Option (Str × Str))
    (pr : List (Str × Str) × Str) : Bool :=
  chunksSoundAux matchAt pr.2 pr.1

/-! ### Concrete inputs used by the counterexamples and witnesses -/

/-- A Text record whose body contains a router-key marker strictly
before a `repoName` marker. -/
def c1Input : Str :=
  ofString "18:T1,A\x7b\"parallelRouterKey\":x\x7b\"repoName\":y"

/-- Two records carrying the wiki detection marker: the first with full
metadata and page list, the second with the bare marker only. -/
def c2Input : Str :=
  ofString "10:[z\"wiki\":\x7b\"metadata\":\x7b\"a\":\"b\"\x7d,\"pages\":[\x7b\"page_plan\":\x7b\"id\":\"1\",\"title\":\"T\"\x7d,\"content\":\"$18\"\x7d]\x7d\n11:[z\"wiki\":\x7bz"

/-- A Text record finalized with an empty body, referenced by a page
descriptor. -/
def c4Input : Str :=
  ofString "18:T1,\n10:[\"wiki\":\x7b\"pages\":[\x7b\"page_plan\":\x7b\"id\":\"1\",\"title\":\"T\"\x7d,\"content\":\"$18\"\x7d]\x7d"

/-- A completed record carrying the wiki marker whose metadata substring
is present but not valid JSON. -/
def c6Entry : Str × RSCEntry :=
  (ofString "11",
   { id := ofString "11", type := .ARRAY,
     fullContent := some (ofString "\"wiki\":\x7b\"metadata\":\x7boops\x7d") })

end DeepWiki

namespace DeepWiki

/-! ## Theorems -/

/-! ### Association-list map lemmas -/

theorem mapLookup_set_self {α : Type} (m : List (Str × α)) (k : Str) (v : α) :
    mapLookup (mapSet m k v) k = some v := by
  induction m with
  | nil => simp [mapSet, mapLookup]
  | cons p rest ih =>
    by_cases h : p.1 = k
    · simp [mapSet, mapLookup, h]
    · simp [mapSet, mapLookup, h, ih]

theorem mapLookup_set_ne {α : Type} (m : List (Str × α)) (k k' : Str) (v : α)
    (h : k ≠ k') : mapLookup (mapSet m k v) k' = mapLookup m k' := by
  induction m with
  | nil => simp [mapSet, mapLookup, h]
  | cons p rest ih =>
    by_cases hk : p.1 = k
    · simp only [mapSet, hk, if_pos rfl, mapLookup]
      rw [if_neg (hk ▸ h), if_neg (hk ▸ h)]
    · simp only [mapSet, hk, if_neg hk, mapLookup]
      by_cases hk' : p.1 = k'
      · rw [if_pos hk', if_pos hk']
      · rw [if_neg hk', if_neg hk', ih]

theorem mapKeys_set_mem {α : Type} (m : List (Str × α)) (k : Str) (v : α) (a : Str)
    (ha : a ∈ mapKeys (mapSet m k v)) : a ∈ mapKeys m ∨ a = k := by
  induction m with
  | nil => simpa [mapSet, mapKeys] using ha
  | cons p rest ih =>
    by_cases hk : p.1 = k
    · simp only [mapSet, if_pos hk, mapKeys, List.map_cons, List.mem_cons] at ha ⊢
      tauto
    · simp only [mapSet, if_neg hk, mapKeys, List.map_cons, List.mem_cons] at ha ⊢
      rcases ha with h | h
      · tauto
      · rcases ih h with h' | h' <;> tauto

theorem mapKeys_set_nodup {α : Type} (m : List (Str × α)) (k : Str) (v : α)
    (h : (mapKeys m).Nodup) : (mapKeys (mapSet m k v)).Nodup := by
  induction m with
  | nil => simp [mapSet, mapKeys]
  | cons p rest ih =>
    simp only [mapKeys, List.map_cons, List.nodup_cons] at h
    by_cases hk : p.1 = k
    · simp only [mapSet, if_pos hk, mapKeys, List.map_cons, List.nodup_cons]
      exact ⟨h.1, h.2⟩
    · simp only [mapSet, if_neg hk, mapKeys, List.map_cons, List.nodup_cons]
      refine ⟨fun hmem => ?_, ih h.2⟩
      rcases mapKeys_set_mem rest k v p.1 hmem with h' | h'
      · exact h.1 h'
      · exact hk h'

theorem optLast_cons {α : Type} (a : α) (l : List α) :
    (a :: l).getLast? =
      match l.getLast? with
      | some w => some w
      | none => some a := by
  cases l with
  | nil => simp
  | cons b t =>
    rw [List.getLast?_cons_cons]
    obtain ⟨w, hw⟩ :=
      Option.isSome_iff_exists.mp ((List.getLast?_isSome (l := b :: t)).mpr (by simp))
    rw [hw]

/-! ### The line loop as a sequence of finalizations -/

theorem parseLinesFrom_cons (a : LoopSt) (l : Str) (ls : List Str) :
    parseLinesFrom a (l :: ls) = parseLinesFrom (stepLine a l) ls := rfl

theorem parseLinesFrom_eq_applySaves (lines : List Str) :
    ∀ (cur : Option RSCEntry) (buf : List Str) (st : PState),
      parseLinesFrom { cur := cur, buf := buf, st := st } lines
        = applySaves st (finalizedFrom cur buf lines) := by
  induction lines with
  | nil =>
    intro cur buf st
    cases cur with
    | some e => simp [parseLinesFrom, finalizedFrom, applySaves]
    | none => simp [parseLinesFrom, finalizedFrom, applySaves]
  | cons l ls ih =>
    intro cur buf st
    rw [parseLinesFrom_cons]
    cases hl : lineHeader l with
    | some p =>
      cases cur with
      | some e0 =>
        simp only [stepLine, hl, finalizedFrom, applySaves, List.foldl_cons]
        exact ih _ _ _
      | none =>
        simp only [stepLine, hl, finalizedFrom, applySaves]
        exact ih _ _ _
    | none =>
      simp only [stepLine, hl, finalizedFrom]
      exact ih _ _ _

theorem parseLines_eq_applySaves (lines : List Str) :
    parseLines lines = applySaves {} (finalizedOf lines) :=
  parseLinesFrom_eq_applySaves lines none [] {}

theorem applySaves_cons (st : PState) (eb : RSCEntry × List Str)
    (saves : List (RSCEntry × List Str)) :
    applySaves st (eb :: saves) = applySaves (saveEntry st eb.1 eb.2) saves := rfl

theorem saveEntry_md_lookup_unchanged (st : PState) (e : RSCEntry) (buf : List Str)
    (idv : Str) (h : mdUpd idv (e, buf) = none) :
    mapLookup (saveEntry st e buf).markdownContents idv
      = mapLookup st.markdownContents idv := by
  unfold mdUpd at h
  by_cases ht : e.type = .T
  · have hid : e.id ≠ idv := by
      intro hid
      simp [ht, hid] at h
    simp only [saveEntry, ht, if_pos rfl]
    exact mapLookup_set_ne _ _ _ _ hid
  · simp [saveEntry, ht]

theorem applySaves_md_lookup (saves : List (RSCEntry × List Str)) :
    ∀ (st : PState) (idv : Str),
      mapLookup (applySaves st saves).markdownContents idv
        = match (saves.filterMap (mdUpd idv)).getLast? with
          | some v => some v
          | none => mapLookup st.markdownContents idv := by
  induction saves with
  | nil => intro st idv; simp [applySaves]
  | cons eb rest ih =>
    intro st idv
    rw [applySaves_cons, ih]
    rw [List.filterMap_cons]
    cases hu : mdUpd idv eb with
    | none =>
      cases hlast : (rest.filterMap (mdUpd idv)).getLast? with
      | some w => simp
      | none =>
        simp only
        exact saveEntry_md_lookup_unchanged st eb.1 eb.2 idv hu
    | some v =>
      rw [optLast_cons]
      cases hlast : (rest.filterMap (mdUpd idv)).getLast? with
      | some w => simp
      | none =>
        simp only
        unfold mdUpd at hu
        by_cases hc : eb.1.type = .T ∧ eb.1.id = idv
        · have hv : savedBody eb.1 eb.2 = v := by simpa [hc] using hu
          simp only [saveEntry, hc.1, if_pos rfl]
          rw [← hc.2, ← hv]
          exact mapLookup_set_self _ _ _
        · simp [hc] at hu

theorem saveEntry_ent_lookup_unchanged (st : PState) (e : RSCEntry) (buf : List Str)
    (idv : Str) (h : entUpd idv (e, buf) = none) :
    mapLookup (saveEntry st e buf).entries idv = mapLookup st.entries idv := by
  unfold entUpd at h
  have hid : e.id ≠ idv := by
    intro hid
    simp [hid] at h
  simp only [saveEntry]
  exact mapLookup_set_ne _ _ _ _ hid

theorem applySaves_ent_lookup (saves : List (RSCEntry × List Str)) :
    ∀ (st : PState) (idv : Str),
      mapLookup (applySaves st saves).entries idv
        = match (saves.filterMap (entUpd idv)).getLast? with
          | some v => some v
          | none => mapLookup st.entries idv := by
  induction saves with
  | nil => intro st idv; simp [applySaves]
  | cons eb rest ih =>
    intro st idv
    rw [applySaves_cons, ih]
    rw [List.filterMap_cons]
    cases hu : entUpd idv eb with
    | none =>
      cases hlast : (rest.filterMap (entUpd idv)).getLast? with
      | some w => simp
      | none =>
        simp only
        exact saveEntry_ent_lookup_unchanged st eb.1 eb.2 idv hu
    | some v =>
      rw [optLast_cons]
      cases hlast : (rest.filterMap (entUpd idv)).getLast? with
      | some w => simp
      | none =>
        simp only
        unfold entUpd at hu
        by_cases hc : eb.1.id = idv
        · have hv : savedRecord eb.1 eb.2 = v := by simpa [hc] using hu
          simp only [saveEntry]
          rw [← hc, ← hv]
          exact mapLookup_set_self _ _ _
        · simp [hc] at hu

theorem applySaves_nodup (saves : List (RSCEntry × List Str)) :
    ∀ (st : PState),
      (mapKeys st.entries).Nodup → (mapKeys st.markdownContents).Nodup →
      (mapKeys (applySaves st saves).entries).Nodup ∧
      (mapKeys (applySaves st saves).markdownContents).Nodup := by
  induction saves with
  | nil => intro st h1 h2; exact ⟨h1, h2⟩
  | cons eb rest ih =>
    intro st h1 h2
    rw [applySaves_cons]
    refine ih _ (mapKeys_set_nodup _ _ _ h1) ?_
    by_cases ht : eb.1.type = .T
    · simp only [saveEntry, ht, if_pos rfl]
      exact mapKeys_set_nodup _ _ _ h2
    · simpa [saveEntry, ht] using h2

/-! ### Claim C8 -/

/-- Claim C8: within one decode, record ids are duplicate-free keys of
the finalized record map and of the Text content-lookup map, and the
entry looked up for an id is the one contributed by the last record
finalized with that id (overwrite semantics, never an error). -/
theorem c8_duplicate_overwrite (lines : List Str) (idv : Str) :
    mapLookup (parseLines lines).markdownContents idv
      = ((finalizedOf lines).filterMap (mdUpd idv)).getLast? ∧
    mapLookup (parseLines lines).entries idv
      = ((finalizedOf lines).filterMap (entUpd idv)).getLast? ∧
    (mapKeys (parseLines lines).entries).Nodup ∧
    (mapKeys (parseLines lines).markdownContents).Nodup := by
  rw [parseLines_eq_applySaves]
  have hmd := applySaves_md_lookup (finalizedOf lines) {} idv
  have hent := applySaves_ent_lookup (finalizedOf lines) {} idv
  have hnd := applySaves_nodup (finalizedOf lines) {} (by simp [mapKeys]) (by simp [mapKeys])
  refine ⟨?_, ?_, hnd.1, hnd.2⟩
  · rw [hmd]
    cases ((finalizedOf lines).filterMap (mdUpd idv)).getLast? <;> simp [mapLookup]
  · rw [hent]
    cases ((finalizedOf lines).filterMap (entUpd idv)).getLast? <;> simp [mapLookup]

/-! ### Claim C5 -/

theorem finalizedFrom_nonheader :
    ∀ (cont : List Str), (∀ l ∈ cont, lineHeader l = none) →
      ∀ (cur : Option RSCEntry) (buf : List Str) (rest : List Str),
        finalizedFrom cur buf (cont ++ rest) = finalizedFrom cur (buf ++ cont) rest := by
  intro cont
  induction cont with
  | nil => intro _ cur buf rest; simp
  | cons l ct ih =>
    intro h cur buf rest
    have hl : lineHeader l = none := h l (by simp)
    have hct : ∀ x ∈ ct, lineHeader x = none := fun x hx => h x (by simp [hx])
    simp only [List.cons_append, finalizedFrom, hl, List.append_eq]
    rw [ih hct cur (buf ++ [l]) rest, List.append_assoc]
    rfl

theorem tHead_parseEntryStart (idv rest0 hx frag : Str)
    (h2 : tHead rest0 = some (hx, frag)) :
    parseEntryStart idv rest0
      = { id := idv, type := .T, hash := some hx, content := some frag } := by
  have hpreI : List.isPrefixOf ['I', '['] rest0 = false := by
    by_contra hI
    have hI' : List.isPrefixOf ['I', '['] rest0 = true := by
      cases hb : List.isPrefixOf ['I', '['] rest0 with
      | true => rfl
      | false => exact absurd hb hI
    obtain ⟨t, ht⟩ := (List.isPrefixOf_iff_prefix.mp hI')
    rw [← ht] at h2
    simp [tHead] at h2
  have hpreB : List.isPrefixOf ['['] rest0 = false := by
    by_contra hB
    have hB' : List.isPrefixOf ['['] rest0 = true := by
      cases hb : List.isPrefixOf ['['] rest0 with
      | true => rfl
      | false => exact absurd hb hB
    obtain ⟨t, ht⟩ := (List.isPrefixOf_iff_prefix.mp hB')
    rw [← ht] at h2
    simp [tHead] at h2
  simp [parseEntryStart, hpreI, hpreB, h2]

theorem contamIdx_none_finalizeT (t : Str) (h : contamIdx t = none) :
    finalizeT t = t := by
  unfold finalizeT
  rw [h]

/-- Claim C5: a Text header line followed by continuation lines up to
the next header line (or end of input) finalizes, when no contamination
marker occurs in the joined text and no later record reuses the id,
with a body equal to the inline fragment (when non-empty) followed by
those lines, joined by single newlines and trimmed. -/
theorem c5_continuation_joining (hdr rest0 hx frag idv : Str) (cont rest : List Str)
    (h1 : lineHeader hdr = some (idv, rest0))
    (h2 : tHead rest0 = some (hx, frag))
    (h3 : ∀ l ∈ cont, lineHeader l = none)
    (h4 : rest = [] ∨ ∃ l0 ls, rest = l0 :: ls ∧ (lineHeader l0).isSome = true)
    (h5 : ∀ eb ∈ finalizedOf rest, eb.1.id ≠ idv)
    (h6 : contamIdx (trim (joinNL ((if frag = [] then [] else [frag]) ++ cont))) = none) :
    mapLookup (parseLines (hdr :: (cont ++ rest))).markdownContents idv
      = some (trim (joinNL ((if frag = [] then [] else [frag]) ++ cont))) := by
  have hT := tHead_parseEntryStart idv rest0 hx frag h2
  have hinit : initBuf (parseEntryStart idv rest0) rest0
      = if frag = [] then [] else [frag] := by
    rw [hT]
    by_cases hf : frag = [] <;> simp [initBuf, hf]
  have h0 : finalizedOf (hdr :: (cont ++ rest))
      = finalizedFrom (some (parseEntryStart idv rest0))
          ((if frag = [] then [] else [frag]) ++ cont) rest := by
    unfold finalizedOf
    simp only [finalizedFrom, h1]
    rw [hinit, finalizedFrom_nonheader cont h3]
  have hmdUpd : mdUpd idv
      (parseEntryStart idv rest0, (if frag = [] then [] else [frag]) ++ cont)
      = some (trim (joinNL ((if frag = [] then [] else [frag]) ++ cont))) := by
    rw [hT]
    simp only [mdUpd, savedBody, if_pos (And.intro rfl rfl)]
    simp [contamIdx_none_finalizeT _ h6]
  have htailF : (finalizedOf rest).filterMap (mdUpd idv) = [] := by
    rw [List.filterMap_eq_nil_iff]
    intro eb heb
    unfold mdUpd
    have := h5 eb heb
    simp [this]
  rw [parseLines_eq_applySaves, applySaves_md_lookup, h0]
  rcases h4 with hrest | ⟨l0, ls, hrest, hl0⟩
  · subst hrest
    simp only [finalizedFrom, List.filterMap_cons, hmdUpd, List.filterMap_nil]
    simp
  · subst hrest
    obtain ⟨⟨i2, r2⟩, hl0'⟩ := Option.isSome_iff_exists.mp hl0
    have hsplit : finalizedFrom (some (parseEntryStart idv rest0))
        ((if frag = [] then [] else [frag]) ++ cont) (l0 :: ls)
        = (parseEntryStart idv rest0, (if frag = [] then [] else [frag]) ++ cont)
            :: finalizedOf (l0 :: ls) := by
      unfold finalizedOf
      simp only [finalizedFrom, hl0']
    rw [hsplit, List.filterMap_cons, hmdUpd, htailF]
    simp

/-- Claim C5, witness: a Text header with inline fragment followed by
two continuation lines and end of input finalizes to the three pieces
joined by newlines. -/
theorem c5_witness :
    mapLookup (parseLines
        [ofString "18:T2,# Hi", ofString "world", ofString "again"]).markdownContents
        (ofString "18")
      = some (trim (joinNL ((if (ofString "# Hi") = [] then [] else [ofString "# Hi"])
          ++ [ofString "world", ofString "again"]))) := by
  have h := c5_continuation_joining (ofString "18:T2,# Hi") (ofString "T2,# Hi")
    (ofString "2") (ofString "# Hi") (ofString "18")
    [ofString "world", ofString "again"] []
    (by decide) (by decide) (by decide) (Or.inl rfl) (by decide) (by decide)
  simpa using h

/-! ### Claim C7 -/

/-- Claim C7: calling `parse` on an instance that has already performed
any prior parse yields the same state and result as calling it on a
fresh instance — `reset` clears all four per-instance fields at the
start of every parse. -/
theorem c7_reset_independence (st : PState) (y x : Str) :
    parseOn (parseOn st y).1 x = parseOn ({} : PState) x := rfl

/-! ### The page-tree scan as a last-successful-extraction fold -/

theorem extractStep_entries (st : PState) (pr : Str × RSCEntry) :
    (extractStep st pr).entries = st.entries := by
  by_cases h : containsLit wikiLit (entryBody pr.2)
  · cases hm : metaMatch (entryBody pr.2) <;>
      cases hp : pagesExtract (entryBody pr.2) <;>
        simp [extractStep, h, hm, hp]
    all_goals split <;> rfl
  · simp [extractStep, h]

theorem extractStep_markdown (st : PState) (pr : Str × RSCEntry) :
    (extractStep st pr).markdownContents = st.markdownContents := by
  by_cases h : containsLit wikiLit (entryBody pr.2)
  · cases hm : metaMatch (entryBody pr.2) <;>
      cases hp : pagesExtract (entryBody pr.2) <;>
        simp [extractStep, h, hm, hp]
    all_goals split <;> rfl
  · simp [extractStep, h]

theorem extractStep_metadata (st : PState) (pr : Str × RSCEntry) :
    (extractStep st pr).metadata =
      if containsLit wikiLit (entryBody pr.2) then
        match metaOf pr.2 with
        | some j => some j
        | none => st.metadata
      else st.metadata := by
  by_cases h : containsLit wikiLit (entryBody pr.2)
  · cases hm : metaMatch (entryBody pr.2) <;>
      cases hp : pagesExtract (entryBody pr.2) <;>
        simp [extractStep, metaOf, h, hm, hp]
    all_goals split <;> rfl
  · simp [extractStep, h]

theorem extractStep_pageStructure (st : PState) (pr : Str × RSCEntry) :
    (extractStep st pr).pageStructure =
      if containsLit wikiLit (entryBody pr.2) then
        match pagesOf pr.2 with
        | some ps => ps
        | none => st.pageStructure
      else st.pageStructure := by
  by_cases h : containsLit wikiLit (entryBody pr.2)
  · cases hm : metaMatch (entryBody pr.2) <;>
      cases hp : pagesExtract (entryBody pr.2) <;>
        simp [extractStep, pagesOf, h, hm, hp]
    all_goals split <;> rfl
  · simp [extractStep, h]

theorem extract_fold_entries (l : List (Str × RSCEntry)) :
    ∀ acc : PState, (l.foldl extractStep acc).entries = acc.entries := by
  induction l with
  | nil => intro acc; rfl
  | cons pr rest ih =>
    intro acc
    rw [List.foldl_cons, ih, extractStep_entries]

theorem extract_fold_markdown (l : List (Str × RSCEntry)) :
    ∀ acc : PState, (l.foldl extractStep acc).markdownContents = acc.markdownContents := by
  induction l with
  | nil => intro acc; rfl
  | cons pr rest ih =>
    intro acc
    rw [List.foldl_cons, ih, extractStep_markdown]

theorem extract_fold_metadata (l : List (Str × RSCEntry)) :
    ∀ acc : PState, (l.foldl extractStep acc).metadata
      = match ((wikiEntries l).filterMap metaOf).getLast? with
        | some j => some j
        | none => acc.metadata := by
  induction l with
  | nil => intro acc; simp [wikiEntries]
  | cons pr rest ih =>
    intro acc
    rw [List.foldl_cons, ih]
    by_cases h : containsLit wikiLit (entryBody pr.2)
    · have hw : wikiEntries (pr :: rest) = pr.2 :: wikiEntries rest := by
        simp [wikiEntries, List.filter_cons, h]
      rw [hw, List.filterMap_cons]
      cases hm : metaOf pr.2 with
      | none =>
        cases hlast : ((wikiEntries rest).filterMap metaOf).getLast? with
        | some w => simp
        | none => simp [extractStep_metadata, h, hm]
      | some j =>
        rw [optLast_cons]
        cases hlast : ((wikiEntries rest).filterMap metaOf).getLast? with
        | some w => simp
        | none => simp [extractStep_metadata, h, hm]
    · have hw : wikiEntries (pr :: rest) = wikiEntries rest := by
        simp [wikiEntries, List.filter_cons, h]
      rw [hw]
      cases hlast : ((wikiEntries rest).filterMap metaOf).getLast? with
      | some w => simp
      | none => simp [extractStep_metadata, h]

theorem extract_fold_pageStructure (l : List (Str × RSCEntry)) :
    ∀ acc : PState, (l.foldl extractStep acc).pageStructure
      = match ((wikiEntries l).filterMap pagesOf).getLast? with
        | some ps => ps
        | none => acc.pageStructure := by
  induction l with
  | nil => intro acc; simp [wikiEntries]
  | cons pr rest ih =>
    intro acc
    rw [List.foldl_cons, ih]
    by_cases h : containsLit wikiLit (entryBody pr.2)
    · have hw : wikiEntries (pr :: rest) = pr.2 :: wikiEntries rest := by
        simp [wikiEntries, List.filter_cons, h]
      rw [hw, List.filterMap_cons]
      cases hm : pagesOf pr.2 with
      | none =>
        cases hlast : ((wikiEntries rest).filterMap pagesOf).getLast? with
        | some w => simp
        | none => simp [extractStep_pageStructure, h, hm]
      | some ps =>
        rw [optLast_cons]
        cases hlast : ((wikiEntries rest).filterMap pagesOf).getLast? with
        | some w => simp
        | none => simp [extractStep_pageStructure, h, hm]
    · have hw : wikiEntries (pr :: rest) = wikiEntries rest := by
        simp [wikiEntries, List.filter_cons, h]
      rw [hw]
      cases hlast : ((wikiEntries rest).filterMap pagesOf).getLast? with
      | some w => simp
      | none => simp [extractStep_pageStructure, h]

/-! ### Claim C2, amended -/

/-- Claim C2, amended: across all marker-carrying records in iteration
order, the final metadata is the last successfully parsed metadata
object and the final page list is the last successfully extracted one;
a marker-carrying record from which nothing can be extracted leaves the
previous values in place. -/
theorem c2_amended_last_successful_extraction (st : PState) :
    extractPageStructure st = { st with
      metadata :=
        match ((wikiEntries st.entries).filterMap metaOf).getLast? with
        | some j => some j
        | none => st.metadata,
      pageStructure :=
        match ((wikiEntries st.entries).filterMap pagesOf).getLast? with
        | some ps => ps
        | none => st.pageStructure } := by
  apply PState.ext
  · exact extract_fold_entries st.entries st
  · exact extract_fold_markdown st.entries st
  · exact extract_fold_pageStructure st.entries st
  · exact extract_fold_metadata st.entries st

/-! ### Claim C6 -/

/-- Claim C6: the decode never fails — an unrecognized record shape
falls through to the opaque kind, and a metadata substring that is
present but unparseable leaves the metadata unchanged while the page
list is still extracted as usual. -/
theorem c6_graceful_degradation :
    (∀ (idv c : Str), List.isPrefixOf ['I', '['] c = false →
      List.isPrefixOf ['['] c = false → tHead c = none →
      parseEntryStart idv c = { id := idv, type := .OTHER }) ∧
    (∀ (st : PState) (pr : Str × RSCEntry) (inner : Str),
      containsLit wikiLit (entryBody pr.2) = true →
      metaMatch (entryBody pr.2) = some inner →
      jsonParse ('\x7b' :: inner ++ ['\x7d']) = none →
      (extractStep st pr).metadata = st.metadata ∧
      (extractStep st pr).pageStructure =
        (match pagesExtract (entryBody pr.2) with
         | some ps => parsePageList ps
         | none => st.pageStructure)) := by
  constructor
  · intro idv c h1 h2 h3
    simp [parseEntryStart, h1, h2, h3]
  · intro st pr inner hmark hm hj
    have hmeta : metaOf pr.2 = none := by
      simp only [metaOf, hm]
      exact hj
    constructor
    · rw [extractStep_metadata, if_pos hmark, hmeta]
    · rw [extractStep_pageStructure, if_pos hmark]
      unfold pagesOf
      cases pagesExtract (entryBody pr.2) <;> rfl

/-- Claim C6, witness: an unclassifiable first part yields an opaque
record, and the marker-carrying record `c6Entry` with unparseable
metadata leaves metadata unchanged while page extraction proceeds. -/
theorem c6_witness :
    parseEntryStart (ofString "10") (ofString "xyz")
      = { id := ofString "10", type := EntryTy.OTHER } ∧
    (extractStep {} c6Entry).metadata = ({} : PState).metadata ∧
    (extractStep {} c6Entry).pageStructure =
      (match pagesExtract (entryBody c6Entry.2) with
       | some ps => parsePageList ps
       | none => ({} : PState).pageStructure) := by
  refine ⟨c6_graceful_degradation.1 (ofString "10") (ofString "xyz")
      (by decide) (by decide) (by decide), ?_, ?_⟩
  · exact (c6_graceful_degradation.2 {} c6Entry (ofString "oops")
      (by decide) (by decide) rfl).1
  · exact (c6_graceful_degradation.2 {} c6Entry (ofString "oops")
      (by decide) (by decide) rfl).2

/-! ### Claim C9 -/

/-- Claim C9: `parse` applied to the empty string yields no pages, no
markdown list entries, and no metadata. -/
theorem c9_empty_input :
    (parse (ofString "")).pages = [] ∧ (parse (ofString "")).allMarkdown = [] ∧
    (parse (ofString "")).metadata = none :=
  ⟨rfl, rfl, rfl⟩

/-! ### Claim C3, amended: matcher specifications -/

theorem takeExact_append (p : Char → Bool) :
    ∀ (n : Nat) (s a b : Str), takeExact p n s = some (a, b) → s = a ++ b := by
  intro n
  induction n with
  | zero =>
    intro s a b h
    simp only [takeExact, Option.some.injEq, Prod.mk.injEq] at h
    rw [← h.1, ← h.2]
    rfl
  | succ n ih =>
    intro s a b h
    cases s with
    | nil => simp [takeExact] at h
    | cons c cs =>
      simp only [takeExact] at h
      by_cases hp : p c
      · rw [if_pos hp] at h
        cases hte : takeExact p n cs with
        | none => rw [hte] at h; simp at h
        | some ab =>
          rw [hte] at h
          simp only [Option.map_some', Option.some.injEq, Prod.mk.injEq] at h
          have hcs : cs = ab.1 ++ ab.2 := ih cs ab.1 ab.2 (by rw [hte])
          rw [← h.1, ← h.2, hcs]
          rfl
      · rw [if_neg hp] at h; simp at h

theorem matchTWith_spec (i h : Nat) (s m r : Str)
    (hm : matchTWith i h s = some (m, r)) : s = m ++ r ∧ m ≠ [] := by
  unfold matchTWith at hm
  split at hm <;> try exact Option.noConfusion hm
  rename_i idc r1 heq1
  split at hm <;> try exact Option.noConfusion hm
  rename_i r2
  split at hm <;> try exact Option.noConfusion hm
  rename_i hc r3 heq3
  split at hm <;> try exact Option.noConfusion hm
  rename_i r4
  simp only [Option.some.injEq, Prod.mk.injEq] at hm
  have ha : s = idc ++ (':' :: 'T' :: r2) := takeExact_append isHexDig i s idc _ heq1
  have hb : r2 = hc ++ (',' :: r4) := takeExact_append isHexDig h r2 hc _ heq3
  constructor
  · rw [← hm.1, ← hm.2, ha, hb]
    simp
  · rw [← hm.1]
    simp

theorem matchArrWith_spec (i : Nat) (s m r : Str)
    (hm : matchArrWith i s = some (m, r)) : s = m ++ r ∧ m ≠ [] := by
  unfold matchArrWith at hm
  split at hm <;> try exact Option.noConfusion hm
  rename_i idc rr heq
  simp only [Option.some.injEq, Prod.mk.injEq] at hm
  have ha : s = idc ++ (':' :: '[' :: rr) := takeExact_append isHexDig i s idc _ heq
  constructor
  · rw [← hm.1, ← hm.2, ha]
    simp
  · rw [← hm.1]
    simp

theorem matchIWith_spec (i : Nat) (s m r : Str)
    (hm : matchIWith i s = some (m, r)) : s = m ++ r ∧ m ≠ [] := by
  unfold matchIWith at hm
  split at hm <;> try exact Option.noConfusion hm
  rename_i idc rr heq
  simp only [Option.some.injEq, Prod.mk.injEq] at hm
  have ha : s = idc ++ (':' :: 'I' :: '[' :: rr) := takeExact_append isHexDig i s idc _ heq
  constructor
  · rw [← hm.1, ← hm.2, ha]
    simp
  · rw [← hm.1]
    simp

theorem orElse_spec {α : Type} (P : α → Prop) (a b : Option α)
    (ha : ∀ x, a = some x → P x) (hb : ∀ x, b = some x → P x) :
    ∀ x, (a <|> b) = some x → P x := by
  intro x hx
  rcases (Option.orElse_eq_some a b x).mp hx with h | ⟨_, h⟩
  · exact ha x h
  · exact hb x h

theorem matchTAt_spec (s m r : Str) (hm : matchTAt s = some (m, r)) :
    s = m ++ r ∧ m ≠ [] := by
  unfold matchTAt at hm
  refine orElse_spec (fun x : Str × Str => s = x.1 ++ x.2 ∧ x.1 ≠ []) _ _
    (fun x hx => matchTWith_spec 2 4 s x.1 x.2 hx)
    (orElse_spec _ _ _ (fun x hx => matchTWith_spec 2 3 s x.1 x.2 hx)
      (orElse_spec _ _ _ (fun x hx => matchTWith_spec 2 2 s x.1 x.2 hx)
        (orElse_spec _ _ _ (fun x hx => matchTWith_spec 2 1 s x.1 x.2 hx)
          (orElse_spec _ _ _ (fun x hx => matchTWith_spec 1 4 s x.1 x.2 hx)
            (orElse_spec _ _ _ (fun x hx => matchTWith_spec 1 3 s x.1 x.2 hx)
              (orElse_spec _ _ _ (fun x hx => matchTWith_spec 1 2 s x.1 x.2 hx)
                (fun x hx => matchTWith_spec 1 1 s x.1 x.2 hx)))))))
    (m, r) hm

theorem matchArrAt_spec (s m r : Str) (hm : matchArrAt s = some (m, r)) :
    s = m ++ r ∧ m ≠ [] := by
  unfold matchArrAt at hm
  exact orElse_spec (fun x : Str × Str => s = x.1 ++ x.2 ∧ x.1 ≠ []) _ _
    (fun x hx => matchArrWith_spec 2 s x.1 x.2 hx)
    (fun x hx => matchArrWith_spec 1 s x.1 x.2 hx) (m, r) hm

theorem matchIAt_spec (s m r : Str) (hm : matchIAt s = some (m, r)) :
    s = m ++ r ∧ m ≠ [] := by
  unfold matchIAt at hm
  exact orElse_spec (fun x : Str × Str => s = x.1 ++ x.2 ∧ x.1 ≠ []) _ _
    (fun x hx => matchIWith_spec 2 s x.1 x.2 hx)
    (fun x hx => matchIWith_spec 1 s x.1 x.2 hx) (m, r) hm

/-! ### Claim C3, amended: decomposition of one global pass -/

theorem match_rest_lt (matchAt : Str → Option (Str × Str))
    (hspec : ∀ s m r, matchAt s = some (m, r) → s = m ++ r ∧ m ≠ [])
    (c : Char) (cs : Str) (mr : Str × Str) (hma : matchAt (c :: cs) = some mr) :
    mr.2.length ≤ cs.length := by
  obtain ⟨hsum, hne⟩ := hspec _ _ _ hma
  have h1 : cs.length + 1 = mr.1.length + mr.2.length := by
    have := congrArg List.length hsum
    simpa [Nat.add_comm] using this
  have h2 : 1 ≤ mr.1.length := by
    cases hmr1 : mr.1 with
    | nil => exact absurd hmr1 hne
    | cons x xs => simp
  omega

theorem chunks_renderPlain (matchAt : Str → Option (Str × Str))
    (hspec : ∀ s m r, matchAt s = some (m, r) → s = m ++ r ∧ m ≠ []) :
    ∀ (n : Nat) (s : Str), s.length ≤ n →
      renderPlain (chunksAux matchAt n s) = s := by
  intro n
  induction n with
  | zero =>
    intro s hs
    have : s = [] := List.length_eq_zero.mp (Nat.le_zero.mp hs)
    subst this
    rfl
  | succ n ih =>
    intro s hs
    cases s with
    | nil => rfl
    | cons c cs =>
      simp only [List.length_cons] at hs
      cases hma : matchAt (c :: cs) with
      | some mr =>
        have hlen : mr.2.length ≤ n :=
          Nat.le_trans (match_rest_lt matchAt hspec c cs mr hma) (by omega)
        obtain ⟨hsum, _⟩ := hspec _ _ _ hma
        simp only [chunksAux, hma, renderPlain, List.map_cons, List.flatten_cons,
          List.nil_append]
        have hrec := ih mr.2 hlen
        simp only [renderPlain] at hrec
        rw [List.append_assoc, hrec]
        exact hsum.symm
      | none =>
        have hrec := ih cs (by omega)
        cases hch : (chunksAux matchAt n cs).1 with
        | nil =>
          simp only [chunksAux, hma, hch, renderPlain, List.map_nil, List.flatten_nil,
            List.nil_append]
          simp only [renderPlain, hch, List.map_nil, List.flatten_nil, List.nil_append] at hrec
          rw [hrec]
        | cons gm ps =>
          simp only [chunksAux, hma, hch, renderPlain, List.map_cons, List.flatten_cons]
          simp only [renderPlain, hch, List.map_cons, List.flatten_cons] at hrec
          simp only [List.cons_append, List.append_assoc] at hrec ⊢
          rw [hrec]

theorem chunks_renderBroken (matchAt : Str → Option (Str × Str)) :
    ∀ (n : Nat) (s : Str),
      breakBeforeAux matchAt n s = renderBroken (chunksAux matchAt n s) := by
  intro n
  induction n with
  | zero =>
    intro s
    cases s with
    | nil => rfl
    | cons c cs => rfl
  | succ n ih =>
    intro s
    cases s with
    | nil => rfl
    | cons c cs =>
      cases hma : matchAt (c :: cs) with
      | some mr =>
        simp only [breakBeforeAux, chunksAux, hma, renderBroken, List.map_cons,
          List.flatten_cons, List.nil_append]
        have hrec := ih mr.2
        simp only [renderBroken] at hrec
        rw [List.append_assoc, hrec]
        simp
      | none =>
        have hrec := ih cs
        cases hch : (chunksAux matchAt n cs).1 with
        | nil =>
          simp only [breakBeforeAux, chunksAux, hma, hch, renderBroken, List.map_nil,
            List.flatten_nil, List.nil_append]
          simp only [renderBroken, hch, List.map_nil, List.flatten_nil,
            List.nil_append] at hrec
          rw [hrec]
        | cons gm ps =>
          simp only [breakBeforeAux, chunksAux, hma, hch, renderBroken, List.map_cons,
            List.flatten_cons]
          simp only [renderBroken, hch, List.map_cons, List.flatten_cons] at hrec
          simp only [List.cons_append, List.append_assoc] at hrec ⊢
          rw [hrec]

theorem chunks_sound (matchAt : Str → Option (Str × Str))
    (hspec : ∀ s m r, matchAt s = some (m, r) → s = m ++ r ∧ m ≠ []) :
    ∀ (n : Nat) (s : Str), s.length ≤ n →
      chunksSound matchAt (chunksAux matchAt n s) = true := by
  intro n
  induction n with
  | zero =>
    intro s hs
    have : s = [] := List.length_eq_zero.mp (Nat.le_zero.mp hs)
    subst this
    rfl
  | succ n ih =>
    intro s hs
    cases s with
    | nil => rfl
    | cons c cs =>
      simp only [List.length_cons] at hs
      cases hma : matchAt (c :: cs) with
      | some mr =>
        have hlen : mr.2.length ≤ n :=
          Nat.le_trans (match_rest_lt matchAt hspec c cs mr hma) (by omega)
        obtain ⟨hsum, _⟩ := hspec _ _ _ hma
        have hplain : renderPlain (chunksAux matchAt n mr.2) = mr.2 :=
          chunks_renderPlain matchAt hspec n mr.2 hlen
        simp only [chunksAux, hma, chunksSound, chunksSoundAux]
        rw [Bool.and_eq_true]
        constructor
        · apply decide_eq_true
          rw [show ((chunksAux matchAt n mr.2).1, (chunksAux matchAt n mr.2).2)
              = chunksAux matchAt n mr.2 from rfl, hplain, ← hsum]
          exact hma
        · exact ih mr.2 hlen
      | none =>
        have hrec := ih cs (by omega)
        cases hch : (chunksAux matchAt n cs).1 with
        | nil =>
          simp only [chunksAux, hma, hch, chunksSound, chunksSoundAux]
        | cons gm ps =>
          obtain ⟨g, m⟩ := gm
          simp only [chunksAux, hma, hch]
          have heta : chunksAux matchAt n cs = ((g, m) :: ps, (chunksAux matchAt n cs).2) := by
            rw [← hch]
          rw [heta] at hrec
          exact hrec

/-- Claim C3, amended: each of the three global passes decomposes its
input into unmatched gaps and leftmost non-overlapping header matches;
the pass output is exactly that decomposition with one line break
inserted immediately before every matched header (so every found header
begins a new line), the break being inserted unconditionally even when
a line break already precedes the match; removing the inserted breaks
recovers the pass input, and every matched piece genuinely matches the
corresponding header shape at its position. -/
theorem c3_amended_decomposition (s : Str) :
    (renderPlain (chunksOf matchTAt s) = s ∧
     breakBefore matchTAt s = renderBroken (chunksOf matchTAt s) ∧
     chunksSound matchTAt (chunksOf matchTAt s) = true) ∧
    (renderPlain (chunksOf matchArrAt (breakBefore matchTAt s)) = breakBefore matchTAt s ∧
     breakBefore matchArrAt (breakBefore matchTAt s)
       = renderBroken (chunksOf matchArrAt (breakBefore matchTAt s)) ∧
     chunksSound matchArrAt (chunksOf matchArrAt (breakBefore matchTAt s)) = true) ∧
    (renderPlain (chunksOf matchIAt (breakBefore matchArrAt (breakBefore matchTAt s)))
       = breakBefore matchArrAt (breakBefore matchTAt s) ∧
     preprocess s
       = renderBroken (chunksOf matchIAt (breakBefore matchArrAt (breakBefore matchTAt s))) ∧
     chunksSound matchIAt (chunksOf matchIAt (breakBefore matchArrAt (breakBefore matchTAt s)))
       = true) := by
  refine ⟨⟨?_, ?_, ?_⟩, ⟨?_, ?_, ?_⟩, ⟨?_, ?_, ?_⟩⟩
  · exact chunks_renderPlain matchTAt matchTAt_spec _ s (Nat.le_refl _)
  · exact chunks_renderBroken matchTAt _ s
  · exact chunks_sound matchTAt matchTAt_spec _ s (Nat.le_refl _)
  · exact chunks_renderPlain matchArrAt matchArrAt_spec _ _ (Nat.le_refl _)
  · exact chunks_renderBroken matchArrAt _ _
  · exact chunks_sound matchArrAt matchArrAt_spec _ _ (Nat.le_refl _)
  · exact chunks_renderPlain matchIAt matchIAt_spec _ _ (Nat.le_refl _)
  · exact chunks_renderBroken matchIAt _ _
  · exact chunks_sound matchIAt matchIAt_spec _ _ (Nat.le_refl _)

/-! ### Claim C3, counterexample -/

/-- Claim C3 as stated is false: the pre-pass inserts a line break
before a header match unconditionally, even when the match is already
immediately preceded by a line break, so a second application is not
the identity on an already-broken string. -/
theorem c3_counterexample :
    preprocess (ofString "18:T1,a") = ofString "\n18:T1,a" ∧
    preprocess (ofString "\n18:T1,a") = ofString "\n\n18:T1,a" ∧
    preprocess (preprocess (ofString "18:T1,a")) ≠ preprocess (ofString "18:T1,a") :=
  ⟨by decide, by decide, by decide⟩

/-! ### Claim C1, counterexample -/

/-- Claim C1 as stated is false: on `c1Input` the router-key marker is
the earliest contamination match (offset 1), but the decoder truncates
before the `repoName` marker because that pattern is tried first in the
fixed order, leaving the router-key text in the final body. -/
theorem c1_counterexample :
    mapLookup (runParse c1Input).markdownContents (ofString "18")
      = some (ofString "A\x7b\"parallelRouterKey\":x") ∧
    specTruncateEarliest (ofString "A\x7b\"parallelRouterKey\":x\x7b\"repoName\":y")
      = ofString "A" ∧
    ofString "A\x7b\"parallelRouterKey\":x" ≠ ofString "A" :=
  ⟨by decide, by decide, by decide⟩

/-! ### Claim C1, amended -/

theorem containsLit_cons (lit : Str) (c : Char) (cs : Str) :
    containsLit lit (c :: cs) = (isLitAt lit (c :: cs) || containsLit lit cs) := by
  by_cases hp : isLitAt lit (c :: cs) <;> simp [containsLit, firstIdxWhere, hp]

theorem containsLit_nil (lit : Str) (hlit : lit ≠ []) : containsLit lit [] = false := by
  by_cases hq : isLitAt lit []
  · exact absurd (List.prefix_nil.mp (List.isPrefixOf_iff_prefix.mp hq)) hlit
  · simp [containsLit, firstIdxWhere, hq]

theorem firstIdx_take_no_occur (lit : Str) (hlit : lit ≠ []) :
    ∀ (t : Str) (i : Nat), firstIdxWhere (isLitAt lit) t = some i →
      containsLit lit (t.take i) = false := by
  intro t
  induction t with
  | nil =>
    intro i hi
    by_cases hp : isLitAt lit []
    · exact absurd (List.prefix_nil.mp (List.isPrefixOf_iff_prefix.mp hp)) hlit
    · simp [firstIdxWhere, hp] at hi
  | cons c cs ih =>
    intro i hi
    by_cases hp : isLitAt lit (c :: cs)
    · simp only [firstIdxWhere, hp, if_true, Option.some.injEq] at hi
      rw [← hi]
      simpa using containsLit_nil lit hlit
    · simp only [firstIdxWhere, hp, Bool.false_eq_true, if_false] at hi
      cases hfi : firstIdxWhere (isLitAt lit) cs with
      | none => rw [hfi] at hi; simp at hi
      | some j =>
        rw [hfi] at hi
        simp at hi
        rw [← hi, List.take_succ_cons, containsLit_cons]
        have h1 : isLitAt lit (c :: cs.take j) = false := by
          by_contra hq
          have hq' : lit <+: c :: cs.take j := by
            apply List.isPrefixOf_iff_prefix.mp
            cases hb : isLitAt lit (c :: cs.take j) with
            | true => exact hb
            | false => exact absurd hb hq
          have hpre : (c :: cs.take j) <+: (c :: cs) :=
            List.cons_prefix_cons.mpr ⟨rfl, List.take_prefix j cs⟩
          exact hp (List.isPrefixOf_iff_prefix.mpr (hq'.trans hpre))
        rw [h1, ih j hfi]
        rfl

theorem trim_within (s : Str) : trim s <:+: s := by
  unfold trim
  have ha : s.dropWhile isWs <:+ s := List.dropWhile_suffix _
  have hb : ((s.dropWhile isWs).reverse.dropWhile isWs) <:+ (s.dropWhile isWs).reverse :=
    List.dropWhile_suffix _
  have hb' : ((s.dropWhile isWs).reverse.dropWhile isWs).reverse <+: s.dropWhile isWs := by
    apply List.reverse_suffix.mp
    rw [List.reverse_reverse]
    exact hb
  exact (hb'.isInfix).trans (ha.isInfix)

theorem containsLit_iff_within (lit : Str) :
    ∀ s : Str, containsLit lit s = true ↔ lit <:+: s := by
  intro s
  induction s with
  | nil =>
    constructor
    · intro h
      by_cases hq : isLitAt lit []
      · have := List.prefix_nil.mp (List.isPrefixOf_iff_prefix.mp hq)
        simp [this]
      · simp [containsLit, firstIdxWhere, hq] at h
    · intro h
      have hnil : lit = [] := List.infix_nil.mp h
      simp [containsLit, firstIdxWhere, isLitAt, hnil]
  | cons c cs ih =>
    rw [containsLit_cons]
    constructor
    · intro h
      rcases Bool.or_eq_true_iff.mp h with h' | h'
      · exact List.infix_cons_iff.mpr (Or.inl (List.isPrefixOf_iff_prefix.mp h'))
      · exact List.infix_cons_iff.mpr (Or.inr (ih.mp h'))
    · intro h
      rcases List.infix_cons_iff.mp h with h' | h'
      · exact Bool.or_eq_true_iff.mpr (Or.inl (List.isPrefixOf_iff_prefix.mpr h'))
      · exact Bool.or_eq_true_iff.mpr (Or.inr (ih.mpr h'))

theorem containsLit_false_of_within (lit s t : Str)
    (hs : containsLit lit s = false) (ht : t <:+: s) : containsLit lit t = false := by
  cases hb : containsLit lit t with
  | false => rfl
  | true =>
    have := ((containsLit_iff_within lit t).mp hb).trans ht
    rw [(containsLit_iff_within lit s).mpr this] at hs
    exact absurd hs (by simp)

/-- Claim C1, amended: contamination truncation cuts at the first
occurrence of the first pattern, in the fixed order array shape,
`repoName` marker, router-key marker, that matches anywhere in the body
— not at the earliest offset across patterns.  When the array shape
matches, its first occurrence is the cut regardless of the other two;
when it does not and `repoName` occurs, the body is truncated strictly
before `repoName`'s first occurrence and no longer contains it; when
only the router-key marker occurs, the body is truncated strictly
before its first occurrence and no longer contains it; a body with no
marker at all is kept unchanged. -/
theorem c1_amended_fixed_order (t : Str) :
    (∀ j, firstIdxWhere rscArrAt t = some j → finalizeT t = trim (t.take j)) ∧
    (firstIdxWhere rscArrAt t = none →
      ∀ i, firstIdxWhere (isLitAt repoLit) t = some i →
        finalizeT t = trim (t.take i) ∧ containsLit repoLit (finalizeT t) = false) ∧
    (firstIdxWhere rscArrAt t = none → firstIdxWhere (isLitAt repoLit) t = none →
      ∀ k, firstIdxWhere (isLitAt routerLit) t = some k →
        finalizeT t = trim (t.take k) ∧ containsLit routerLit (finalizeT t) = false) ∧
    (contamIdx t = none → finalizeT t = t) := by
  refine ⟨?_, ?_, ?_, ?_⟩
  · intro j hj
    simp [finalizeT, contamIdx, hj]
  · intro hn i hi
    have hct : contamIdx t = some i := by simp [contamIdx, hn, hi]
    have h2 : finalizeT t = trim (t.take i) := by simp [finalizeT, hct]
    refine ⟨h2, ?_⟩
    have h1 : containsLit repoLit (t.take i) = false :=
      firstIdx_take_no_occur repoLit (by decide) t i hi
    rw [h2]
    exact containsLit_false_of_within _ _ _ h1 (trim_within _)
  · intro hn1 hn2 k hk
    have hct : contamIdx t = some k := by simp [contamIdx, hn1, hn2, hk]
    have h2 : finalizeT t = trim (t.take k) := by simp [finalizeT, hct]
    refine ⟨h2, ?_⟩
    have h1 : containsLit routerLit (t.take k) = false :=
      firstIdx_take_no_occur routerLit (by decide) t k hk
    rw [h2]
    exact containsLit_false_of_within _ _ _ h1 (trim_within _)
  · intro hn
    simp [finalizeT, hn]

/-- Claim C1, amended, witness: a body with only a `repoName` marker is
truncated strictly before it, a body with only a router-key marker is
truncated strictly before it, and neither result still contains its
marker. -/
theorem c1_amended_witness :
    (finalizeT (ofString "A\x7b\"repoName\":y")
        = trim ((ofString "A\x7b\"repoName\":y").take 1) ∧
      containsLit repoLit (finalizeT (ofString "A\x7b\"repoName\":y")) = false) ∧
    (finalizeT (ofString "B\x7b\"parallelRouterKey\":z")
        = trim ((ofString "B\x7b\"parallelRouterKey\":z").take 1) ∧
      containsLit routerLit (finalizeT (ofString "B\x7b\"parallelRouterKey\":z")) = false) :=
  ⟨(c1_amended_fixed_order (ofString "A\x7b\"repoName\":y")).2.1 (by decide) 1 (by decide),
   (c1_amended_fixed_order (ofString "B\x7b\"parallelRouterKey\":z")).2.2.1
     (by decide) (by decide) 1 (by decide)⟩

/-! ### Claim C2, counterexample -/

/-- Claim C2 as stated is false: on `c2Input` the most recently
encountered marker-carrying record is `11`, from which neither metadata
nor a page list can be extracted, yet the final page list and metadata
are the ones extracted from the earlier record `10`. -/
theorem c2_counterexample :
    ((wikiEntries (runParse c2Input).entries).getLast?).map (fun e => e.id)
      = some (ofString "11") ∧
    ((wikiEntries (runParse c2Input).entries).getLast?).bind pagesOf = none ∧
    (((wikiEntries (runParse c2Input).entries).getLast?).bind metaOf).isNone = true ∧
    (parse c2Input).pageStructure
      = [{ id := ofString "1", title := ofString "T", contentRef := ofString "18" }] ∧
    (parse c2Input).metadata.isSome = true :=
  ⟨by decide, by decide, rfl, by decide, rfl⟩

/-! ### Claim C4, amended -/

theorem pages_filterMap_eq (md : List (Str × Str)) (l : List PageStructure) :
    l.filterMap (fun p =>
        match mapLookup md p.contentRef with
        | some b =>
          if b = [] then none
          else some { id := p.id, title := p.title, content := b : PageInfo }
        | none => none)
      = (l.filter (fun d => ((mapLookup md d.contentRef).getD []) ≠ [])).map
          (fun d =>
            { id := d.id, title := d.title,
              content := (mapLookup md d.contentRef).getD [] : PageInfo }) := by
  induction l with
  | nil => rfl
  | cons d rest ih =>
    rw [List.filterMap_cons]
    cases hl : mapLookup md d.contentRef with
    | none => simpa [List.filter_cons, hl] using ih
    | some b =>
      by_cases hb : b = []
      · simpa [List.filter_cons, hl, hb] using ih
      · simpa [List.filter_cons, hl, hb] using ih

/-- Claim C4, amended: the pages of the result are the descriptors, in
order, restricted to those whose `contentRef` resolves to a non-empty
body in the content-lookup map, each paired with that body; descriptors
with a missing reference, or one whose finalized body is empty, are
silently dropped while the rest still resolve. -/
theorem c4_amended_nonempty_resolution (st : PState) :
    (buildResult st).pages = specPages st := by
  simp only [buildResult, specPages]
  exact pages_filterMap_eq st.markdownContents st.pageStructure

/-! ### Claim C10 -/

theorem pages_drop_empty_ref (md : List (Str × Str)) (idv : Str)
    (hmd : mapLookup md idv = some []) (l : List PageStructure) :
    l.filterMap (fun p =>
        match mapLookup md p.contentRef with
        | some b =>
          if b = [] then none
          else some { id := p.id, title := p.title, content := b : PageInfo }
        | none => none)
      = (l.filter (fun d => d.contentRef ≠ idv)).filterMap (fun p =>
          match mapLookup md p.contentRef with
          | some b =>
            if b = [] then none
            else some { id := p.id, title := p.title, content := b : PageInfo }
          | none => none) := by
  induction l with
  | nil => rfl
  | cons d rest ih =>
    by_cases hd : d.contentRef = idv
    · rw [List.filterMap_cons]
      rw [hd, hmd]
      simpa [List.filter_cons, hd] using ih
    · cases hl : mapLookup md d.contentRef with
      | none => simp [List.filter_cons, hd, List.filterMap_cons, hl, ih]
      | some b =>
        by_cases hb : b = [] <;>
          simp [List.filter_cons, hd, List.filterMap_cons, hl, hb, ih]

/-- Claim C10: a page descriptor whose `contentRef` refers to a Text
record finalized with an empty body is dropped from the final pages
(removing all such descriptors does not change the page list: the
presence check is a truthiness test, not key membership), and
`getMarkdownById` returns null rather than the empty string for that
id. -/
theorem c10_empty_body_dropped (s : Str) (idv : Str)
    (h : mapLookup (runParse s).markdownContents idv = some []) :
    getMarkdownById (runParse s) idv = none ∧
    (buildResult (runParse s)).pages =
      (buildResult { runParse s with
        pageStructure := (runParse s).pageStructure.filter
          (fun d => d.contentRef ≠ idv) }).pages := by
  constructor
  · simp [getMarkdownById, h]
  · simp only [buildResult]
    exact pages_drop_empty_ref _ idv h _

/-- Claim C10, witness: on `c4Input`, record `18` is finalized with an
empty body; `getMarkdownById` yields null for it and the descriptor
referring to it contributes no page. -/
theorem c10_witness :
    getMarkdownById (runParse c4Input) (ofString "18") = none ∧
    (buildResult (runParse c4Input)).pages =
      (buildResult { runParse c4Input with
        pageStructure := (runParse c4Input).pageStructure.filter
          (fun d => d.contentRef ≠ ofString "18") }).pages :=
  c10_empty_body_dropped c4Input (ofString "18") (by decide)

/-! ### Claim C4, counterexample -/

/-- Claim C4 as stated is false: on `c4Input` the descriptor's
`contentRef` has a corresponding entry in the content-lookup map (with
an empty body), yet the final page list is empty rather than the
membership-based resolution the claim describes. -/
theorem c4_counterexample :
    mapLookup (runParse c4Input).markdownContents (ofString "18") = some [] ∧
    specPagesMembership (runParse c4Input)
      = [{ id := ofString "1", title := ofString "T", content := [] }] ∧
    (parse c4Input).pages = [] ∧
    specPagesMembership (runParse c4Input) ≠ (parse c4Input).pages :=
  ⟨by decide, by decide, by decide, by decide⟩

end DeepWiki
